import Mathlib

/-!
Verification of the Amplify deployment script
(`scripts/amplify_deployment_script.py`) against its specification.

The Python source is shallowly embedded: each Python function the claims
touch becomes a Lean definition of the same name, with external effects
(the Amplify service, operator `input()` prompts, the filesystem) made
explicit as state / oracle arguments.
-/

namespace AmplifyDeploy

/-! ## Remote service model (used by the branch reconciler)

The Amplify service is modelled by the multiset of branch names that exist
for the app, plus an oracle `createOk` saying whether the k-th
`create_branch` call succeeds (a failing call is the source's
`ClientError` path, which prints and returns `False`).  `createCalls`
counts how many `create_branch` calls have been issued. -/

structure Remote where
  branches : List String
  createOk : Nat → Bool
  createCalls : Nat

/-- Embedding of `branch_exists(app_id, branch_name)`: `get_branch`
returns normally iff the branch exists (the `NotFoundException` handler
returns `False`).  The non-`NotFound` error path, which would propagate an
unhandled exception, is modelled separately for the error-handling claim. -/
def branch_exists (r : Remote) (b : String) : Bool :=
  r.branches.contains b

/-- Embedding of `create_branch(app_id, branch_name)`: on success the
branch is added remotely and `True` is returned; on `ClientError` the
function prints a diagnostic and returns `False` (no exit, no retry). -/
def create_branch (r : Remote) (b : String) : Bool × Remote :=
  let ok := r.createOk r.createCalls
  let r1 : Remote := { r with createCalls := r.createCalls + 1 }
  if ok then (true, { r1 with branches := b :: r1.branches }) else (false, r1)

/-- Embedding of the final `while True:` loop of `get_deployment_branch`:
prompt for a branch name; if it exists, return it; otherwise ask `y/n`
whether to create it; `y` with a successful `create_branch` returns it,
anything else loops.  Operator input is the list `inputs` (already
lower-cased/stripped, as the source normalises the `y/n` answers);
exhausted input or fuel yields `none` (the process never produced a
branch).  Fuel is needed because the source loop can run forever. -/
def operatorLoop (fuel : Nat) (r : Remote) (inputs : List String) :
    Option (String × Remote × List String) :=
  match fuel with
  | 0 => none
  | Nat.succ fuel =>
    match inputs with
    | [] => none
    | branchName :: rest =>
      if branch_exists r branchName then some (branchName, r, rest)
      else
        match rest with
        | [] => none
        | ans :: rest2 =>
          if ans = "y" then
            match create_branch r branchName with
            | (true, r1) => some (branchName, r1, rest2)
            | (false, r1) => operatorLoop fuel r1 rest2
          else operatorLoop fuel r rest2

/-- Embedding of the middle (git-branch) section of
`get_deployment_branch`: if a git branch is known and exists remotely,
return it; if known but absent, offer to create it (`y` + successful
creation returns it, otherwise fall through to the operator loop).
The `list_branches` call before the loop only prints; it is omitted. -/
def tryGit (fuel : Nat) (gitBranch : Option String) (r : Remote)
    (inputs : List String) : Option (String × Remote × List String) :=
  match gitBranch with
  | none => operatorLoop fuel r inputs
  | some gb =>
    if branch_exists r gb then some (gb, r, inputs)
    else
      match inputs with
      | [] => none
      | ans :: rest =>
        if ans = "y" then
          match create_branch r gb with
          | (true, r1) => some (gb, r1, rest)
          | (false, r1) => operatorLoop fuel r1 rest
        else operatorLoop fuel r rest

/-- Embedding of `get_deployment_branch(app_id, config_branch, git_branch)`.
The result carries the resolved branch, the final remote state, and the
unconsumed operator input. -/
def get_deployment_branch (fuel : Nat) (configBranch gitBranch : Option String)
    (r : Remote) (inputs : List String) :
    Option (String × Remote × List String) :=
  match configBranch with
  | some cb =>
    if branch_exists r cb then some (cb, r, inputs)
    else tryGit fuel gitBranch r inputs
  | none => tryGit fuel gitBranch r inputs

lemma create_branch_true_mem {r : Remote} {b : String} {r1 : Remote}
    (h : create_branch r b = (true, r1)) : r1.branches.contains b = true := by
  unfold create_branch at h
  by_cases hok : r.createOk r.createCalls = true
  · simp [hok] at h
    subst h
    simp [List.contains_cons]
  · simp [hok] at h

lemma operatorLoop_mem : ∀ (fuel : Nat) (r : Remote) (inputs : List String)
    (b : String) (r1 : Remote) (rest : List String),
    operatorLoop fuel r inputs = some (b, r1, rest) →
    r1.branches.contains b = true := by
  intro fuel
  induction fuel with
  | zero => intro r inputs b r1 rest h; simp [operatorLoop] at h
  | succ n ih =>
    intro r inputs b r1 rest h
    match inputs with
    | [] => simp [operatorLoop] at h
    | branchName :: tail =>
      simp only [operatorLoop] at h
      by_cases hex : branch_exists r branchName = true
      · simp [hex] at h
        obtain ⟨hb, hr, _⟩ := h
        subst hb; subst hr
        exact hex
      · simp [hex] at h
        match tail with
        | [] => simp at h
        | ans :: tail2 =>
          simp at h
          by_cases hans : ans = "y"
          · simp [hans] at h
            rcases hcb : create_branch r branchName with ⟨ok, r2⟩
            rw [hcb] at h
            match ok with
            | true =>
              simp at h
              obtain ⟨hb, hr, _⟩ := h
              subst hb; subst hr
              exact create_branch_true_mem hcb
            | false =>
              simp at h
              exact ih r2 tail2 b r1 rest h
          · simp [hans] at h
            exact ih r tail2 b r1 rest h

lemma tryGit_mem (fuel : Nat) (gitBranch : Option String) (r : Remote)
    (inputs : List String) (b : String) (r1 : Remote) (rest : List String)
    (h : tryGit fuel gitBranch r inputs = some (b, r1, rest)) :
    r1.branches.contains b = true := by
  match gitBranch with
  | none =>
    rw [tryGit] at h
    exact operatorLoop_mem fuel r inputs b r1 rest h
  | some gb =>
    simp only [tryGit] at h
    by_cases hex : branch_exists r gb = true
    · simp [hex] at h
      obtain ⟨hb, hr, _⟩ := h
      subst hb; subst hr
      exact hex
    · simp [hex] at h
      match inputs with
      | [] => simp at h
      | ans :: tail =>
        simp at h
        by_cases hans : ans = "y"
        · simp [hans] at h
          rcases hcb : create_branch r gb with ⟨ok, r2⟩
          rw [hcb] at h
          match ok with
          | true =>
            simp at h
            obtain ⟨hb, hr, _⟩ := h
            subst hb; subst hr
            exact create_branch_true_mem hcb
          | false =>
            simp at h
            exact operatorLoop_mem fuel r2 tail b r1 rest h
        · simp [hans] at h
          exact operatorLoop_mem fuel r tail b r1 rest h

/-- C1: whenever `get_deployment_branch` returns a branch name, that
branch exists in the remote service state at the moment of return (it was
either confirmed to exist by `get_branch` or just created by
`create_branch`), for every configured branch, git branch, remote state,
creation oracle, and operator input sequence. -/
theorem get_deployment_branch_returns_existing (fuel : Nat)
    (configBranch gitBranch : Option String) (r : Remote)
    (inputs : List String) (b : String) (r1 : Remote) (rest : List String)
    (h : get_deployment_branch fuel configBranch gitBranch r inputs =
      some (b, r1, rest)) :
    r1.branches.contains b = true := by
  match configBranch with
  | none =>
    rw [get_deployment_branch] at h
    exact tryGit_mem fuel gitBranch r inputs b r1 rest h
  | some cb =>
    rw [get_deployment_branch] at h
    by_cases hex : branch_exists r cb = true
    · simp [hex] at h
      obtain ⟨hb, hr, _⟩ := h
      subst hb; subst hr
      exact hex
    · simp [hex] at h
      exact tryGit_mem fuel gitBranch r inputs b r1 rest h

def remoteA : Remote := { branches := ["main"], createOk := fun _ => true, createCalls := 0 }

def remoteB : Remote := { branches := [], createOk := fun _ => true, createCalls := 0 }

/-- Witness for C1: a concrete run (no configured branch, git branch
`feat` absent remotely, operator answers `y`) returns `feat`, and the
theorem instantiated there certifies `feat` exists in the final remote
state. -/
theorem get_deployment_branch_returns_existing_witness :
    get_deployment_branch 5 none (some "feat") remoteB ["y"] =
      some ("feat", { branches := ["feat"], createOk := fun _ => true, createCalls := 1 }, []) ∧
    (List.contains (α := String) ["feat"] "feat") = true :=
  ⟨rfl, get_deployment_branch_returns_existing 5 none (some "feat") remoteB
    ["y"] "feat" { branches := ["feat"], createOk := fun _ => true, createCalls := 1 } [] rfl⟩

/-- C8: if a configured branch is given and exists remotely, resolution is
deterministic and independent of the git hint and of the operator input:
two runs differing only in the git branch and the input sequence both
return the configured branch, with the remote state unchanged (so no
`create_branch` call was made: `createCalls` is unchanged) and the input
sequence unconsumed (so no operator prompt was read). -/
theorem get_deployment_branch_configured_independent (fuel : Nat)
    (c : String) (gb1 gb2 : Option String) (r : Remote)
    (is1 is2 : List String) (h : branch_exists r c = true) :
    get_deployment_branch fuel (some c) gb1 r is1 = some (c, r, is1) ∧
    get_deployment_branch fuel (some c) gb2 r is2 = some (c, r, is2) := by
  constructor <;> · rw [get_deployment_branch]; simp [h]

/-- Witness for C8: the configured branch `main` exists in `remoteA`; two
runs with different git hints and input sequences both resolve to `main`
untouched. -/
theorem get_deployment_branch_configured_independent_witness :
    get_deployment_branch 3 (some "main") (some "dev") remoteA ["y"] =
      some ("main", remoteA, ["y"]) ∧
    get_deployment_branch 3 (some "main") none remoteA [] =
      some ("main", remoteA, []) :=
  get_deployment_branch_configured_independent 3 "main" (some "dev") none
    remoteA ["y"] [] (by decide)

/-! ## Error dispositions of the remote-call wrappers

Each wrapper in the source guards its boto3 call with `try/except`.
`SvcOutcome` is what the remote service does on one call; `ProcResult` is
what the wrapper then does: return a value, `sys.exit(code)` after
printing a diagnostic, or let an exception propagate unhandled. -/

inductive SvcOutcome (α : Type) where
  | ok (a : α)
  | err
deriving DecidableEq

inductive ProcResult (α : Type) where
  | ret (a : α)
  | exited (code : Nat)
  | raised
deriving DecidableEq

/-- Embedding of `create_deployment`: a `ClientError` prints a diagnostic
and calls `sys.exit(1)`.  The normal result is `(zipUploadUrl, jobId)`. -/
def create_deployment (o : SvcOutcome (String × String)) :
    ProcResult (String × String) :=
  match o with
  | SvcOutcome.ok v => ProcResult.ret v
  | SvcOutcome.err => ProcResult.exited 1

/-- Embedding of `start_deployment`: a `ClientError` prints and exits 1. -/
def start_deployment (o : SvcOutcome Unit) : ProcResult Unit :=
  match o with
  | SvcOutcome.ok v => ProcResult.ret v
  | SvcOutcome.err => ProcResult.exited 1

/-- Embedding of `list_branches`: a `ClientError` prints and exits 1. -/
def list_branches (o : SvcOutcome (List String)) : ProcResult (List String) :=
  match o with
  | SvcOutcome.ok v => ProcResult.ret v
  | SvcOutcome.err => ProcResult.exited 1

/-- Possible `get_branch` outcomes: branch found, `NotFoundException`, or
any other `ClientError`. -/
inductive GetBranchOutcome where
  | found
  | notFound
  | err
deriving DecidableEq

/-- Error disposition of `branch_exists`: only `NotFoundException` is
caught (returning `False`); any other service error propagates as an
unhandled exception. -/
def branch_exists_err (o : GetBranchOutcome) : ProcResult Bool :=
  match o with
  | GetBranchOutcome.found => ProcResult.ret true
  | GetBranchOutcome.notFound => ProcResult.ret false
  | GetBranchOutcome.err => ProcResult.raised

/-- Error disposition of `create_branch`: a `ClientError` is caught, a
diagnostic is printed, and the function returns `False` — the process does
NOT terminate; callers fall through or re-prompt. -/
def create_branch_err (o : SvcOutcome Unit) : ProcResult Bool :=
  match o with
  | SvcOutcome.ok _ => ProcResult.ret true
  | SvcOutcome.err => ProcResult.ret false

/-- C3 counterexample: a service error in `createBranch` does not
terminate the process — `create_branch` swallows the `ClientError` and
returns `False`, so the claim "every ServiceError causes the process to
terminate with a non-zero status" is false at this concrete input. -/
theorem create_branch_service_error_not_fatal :
    create_branch_err SvcOutcome.err = ProcResult.ret false ∧
    create_branch_err SvcOutcome.err ≠ ProcResult.exited 1 ∧
    create_branch_err SvcOutcome.err ≠ ProcResult.raised := by
  refine ⟨rfl, ?_, ?_⟩ <;> decide

/-- C3 (amended): service errors in `create_deployment`,
`start_deployment` and `list_branches` exit the process with status 1
after a printed diagnostic; a non-`NotFound` service error in `get_branch`
propagates as an unhandled exception; a service error in `create_branch`
is caught and reported, but the call returns `False` and the process
continues. -/
theorem service_error_dispositions :
    create_deployment SvcOutcome.err = ProcResult.exited 1 ∧
    start_deployment SvcOutcome.err = ProcResult.exited 1 ∧
    list_branches SvcOutcome.err = ProcResult.exited 1 ∧
    branch_exists_err GetBranchOutcome.err = ProcResult.raised ∧
    create_branch_err SvcOutcome.err = ProcResult.ret false :=
  ⟨rfl, rfl, rfl, rfl, rfl⟩

/-! ## Build-directory model and `validate_html_directory` -/

/-- A filesystem entry: a regular file with byte content, or a
subdirectory.  A directory's listing is a list of entries. -/
inductive Entry where
  | file (name : String) (content : List Nat)
  | dir (name : String) (children : List Entry)

def Entry.name : Entry → String
  | Entry.file n _ => n
  | Entry.dir n _ => n

/-- Python `s.endswith(suffix)`. -/
def pyEndswith (s suf : String) : Bool :=
  suf.data.isSuffixOf s.data

/-- Python `os.listdir(d)`: the names of the immediate entries of `d`,
files and subdirectories alike. -/
def listdir (d : List Entry) : List String :=
  d.map Entry.name

inductive ValidateResult where
  | ok
  | invalidDirectory
  | emptyArtifact
deriving DecidableEq

/-- Embedding of `validate_html_directory(directory)`: a path that is not
a directory (`dir = none`) raises the invalid-directory `ValueError`;
otherwise `html_files = [f for f in os.listdir(directory) if
f.endswith(".html")]` and an empty list raises the no-HTML-files
`ValueError`. -/
def validate_html_directory (dir : Option (List Entry)) : ValidateResult :=
  match dir with
  | none => ValidateResult.invalidDirectory
  | some d =>
    if (listdir d).filter (fun f => pyEndswith f ".html") = [] then
      ValidateResult.emptyArtifact
    else ValidateResult.ok

/-- Number of regular files (recursively) whose name ends in `.html` —
the spec's notion of "files with the accepted extension". -/
def htmlFileCount : List Entry → Nat
  | [] => 0
  | Entry.file n _ :: rest =>
    (if pyEndswith n ".html" then 1 else 0) + htmlFileCount rest
  | Entry.dir _ ch :: rest => htmlFileCount ch + htmlFileCount rest

/-- A directory whose only entry is an (empty) subdirectory named
`foo.html`: it contains zero `.html` files. -/
def dirOnlyHtmlSubdir : List Entry := [Entry.dir "foo.html" []]

/-- C4 counterexample: `dirOnlyHtmlSubdir` contains zero files with the
`.html` extension, yet `validate_html_directory` succeeds, because
`os.listdir` yields entry *names* and the subdirectory named `foo.html`
satisfies `endswith(".html")`.  The claim "zero accepted-extension files
implies `EmptyArtifact`" is therefore false at this input. -/
theorem validate_html_directory_counterexample :
    htmlFileCount dirOnlyHtmlSubdir = 0 ∧
    validate_html_directory (some dirOnlyHtmlSubdir) = ValidateResult.ok := by
  constructor
  · simp [htmlFileCount, dirOnlyHtmlSubdir]
  · rfl

/-- C4 (amended): `validate_html_directory` raises `InvalidDirectory`
exactly when the path is not a directory; otherwise it raises
`EmptyArtifact` exactly when no immediate entry (file or subdirectory) has
a name ending in `.html`, and succeeds exactly when some immediate entry
does.  Files in nested subdirectories are not consulted. -/
theorem validate_html_directory_characterization (dir : Option (List Entry)) :
    (validate_html_directory dir = ValidateResult.invalidDirectory ↔ dir = none) ∧
    (validate_html_directory dir = ValidateResult.emptyArtifact ↔
      ∃ d, dir = some d ∧ ∀ e ∈ d, pyEndswith (Entry.name e) ".html" = false) ∧
    (validate_html_directory dir = ValidateResult.ok ↔
      ∃ d, dir = some d ∧ ∃ e ∈ d, pyEndswith (Entry.name e) ".html" = true) := by
  match dir with
  | none => simp [validate_html_directory]
  | some d =>
    have hkey : ((listdir d).filter (fun f => pyEndswith f ".html") = []) ↔
        (∀ e ∈ d, pyEndswith (Entry.name e) ".html" = false) := by
      rw [List.filter_eq_nil_iff]
      constructor
      · intro hf e he
        have := hf (Entry.name e) (List.mem_map_of_mem Entry.name he)
        simpa using this
      · intro hall a ha
        rcases List.mem_map.mp ha with ⟨e, he, hee⟩
        subst hee
        simp [hall e he]
    by_cases hf : (listdir d).filter (fun f => pyEndswith f ".html") = []
    · have hv : validate_html_directory (some d) = ValidateResult.emptyArtifact := by
        simp [validate_html_directory, hf]
      rw [hv]
      have hall := hkey.mp hf
      refine ⟨by simp, ?_, ?_⟩
      · constructor
        · intro _; exact ⟨d, rfl, hall⟩
        · intro _; rfl
      · constructor
        · intro h; exact absurd h (by simp)
        · rintro ⟨d2, hd2, e, he, hee⟩
          injection hd2 with hd2
          subst hd2
          have := hall e he
          rw [hee] at this
          exact absurd this (by simp)
    · have hv : validate_html_directory (some d) = ValidateResult.ok := by
        simp [validate_html_directory, hf]
      rw [hv]
      have hne : ∃ e ∈ d, pyEndswith (Entry.name e) ".html" = true := by
        by_contra hno
        apply hf
        apply hkey.mpr
        intro e he
        by_contra hx
        exact hno ⟨e, he, by simpa using hx⟩
      refine ⟨by simp, ?_, ?_⟩
      · constructor
        · intro h; exact absurd h (by simp)
        · rintro ⟨d2, hd2, hall⟩
          injection hd2 with hd2
          subst hd2
          rcases hne with ⟨e, he, hee⟩
          have := hall e he
          rw [hee] at this
          exact absurd this (by simp)
      · constructor
        · intro _; exact ⟨d, rfl, hne⟩
        · intro _; rfl

/-! ## The `deploy` sequence -/

/-- Environment of one `deploy` run: the build directory (as seen by
`validate_html_directory`), the service's answer to `create_deployment`,
whether the artifact PUT gets a 2xx answer (`raise_for_status` succeeds),
and the service's answer to `start_deployment`. -/
structure DeployEnv where
  buildDir : Option (List Entry)
  createDeploymentOutcome : SvcOutcome (String × String)
  uploadOk : Bool
  startOutcome : SvcOutcome Unit

/-- Observable trace of one `deploy` run: the exit status and which
effects occurred.  `zipCreated` — `artifacts.zip` was written;
`uploadAttempted` — the PUT was issued; `startCalled` — the
`start_deployment` call was issued; `artifactDeleted` — `os.remove` ran. -/
structure DeployTrace where
  exitCode : Nat
  zipCreated : Bool
  createDeploymentCalled : Bool
  uploadAttempted : Bool
  startCalled : Bool
  artifactDeleted : Bool
deriving DecidableEq

/-- Embedding of `deploy(app_id, branch_id, directory)`.  The body's
steps run in source order inside `try/except Exception`; a failing
`validate_html_directory` raises into the handler (exit 1); a
`ClientError` in `create_deployment`/`start_deployment` exits 1 inside
the wrapper; a non-2xx upload exits 1 inside `upload_file_to_url`;
`os.remove` runs only after a successful `start_deployment`. -/
def deploy (env : DeployEnv) : DeployTrace :=
  match validate_html_directory env.buildDir with
  | ValidateResult.ok =>
    match env.createDeploymentOutcome with
    | SvcOutcome.err =>
      { exitCode := 1, zipCreated := true, createDeploymentCalled := true,
        uploadAttempted := false, startCalled := false, artifactDeleted := false }
    | SvcOutcome.ok _ =>
      if env.uploadOk then
        match env.startOutcome with
        | SvcOutcome.err =>
          { exitCode := 1, zipCreated := true, createDeploymentCalled := true,
            uploadAttempted := true, startCalled := true, artifactDeleted := false }
        | SvcOutcome.ok _ =>
          { exitCode := 0, zipCreated := true, createDeploymentCalled := true,
            uploadAttempted := true, startCalled := true, artifactDeleted := true }
      else
        { exitCode := 1, zipCreated := true, createDeploymentCalled := true,
          uploadAttempted := true, startCalled := false, artifactDeleted := false }
  | _ =>
    { exitCode := 1, zipCreated := false, createDeploymentCalled := false,
      uploadAttempted := false, startCalled := false, artifactDeleted := false }

/-- C2: every step failure in `deploy` aborts the remaining steps.  In
particular a non-2xx upload exits 1, never calls `start_deployment`, and
leaves the artifact on disk (created, not deleted); a validation failure
prevents every later effect; a `create_deployment` error prevents upload,
start and deletion; a `start_deployment` error prevents deletion; and the
run exits 0 exactly when every step succeeded. -/
theorem deploy_step_failure_aborts (env : DeployEnv) :
    ((deploy env).uploadAttempted = true → env.uploadOk = false →
      (deploy env).exitCode = 1 ∧ (deploy env).startCalled = false ∧
      (deploy env).zipCreated = true ∧ (deploy env).artifactDeleted = false) ∧
    (validate_html_directory env.buildDir ≠ ValidateResult.ok →
      deploy env = DeployTrace.mk 1 false false false false false) ∧
    (env.createDeploymentOutcome = SvcOutcome.err →
      (deploy env).uploadAttempted = false ∧ (deploy env).startCalled = false ∧
      (deploy env).artifactDeleted = false ∧ (deploy env).exitCode = 1) ∧
    (env.startOutcome = SvcOutcome.err →
      (deploy env).artifactDeleted = false ∧ (deploy env).exitCode = 1) ∧
    ((deploy env).exitCode = 0 ↔
      validate_html_directory env.buildDir = ValidateResult.ok ∧
      env.createDeploymentOutcome ≠ SvcOutcome.err ∧ env.uploadOk = true ∧
      env.startOutcome ≠ SvcOutcome.err) := by
  obtain ⟨bd, cdo, up, so⟩ := env
  rcases hv : validate_html_directory bd <;>
    cases cdo <;> cases up <;> cases so <;>
      simp [deploy, hv]

def envUpload403 : DeployEnv :=
  { buildDir := some [Entry.file "index.html" [60, 62]],
    createDeploymentOutcome := SvcOutcome.ok ("https://upload", "job-1"),
    uploadOk := false,
    startOutcome := SvcOutcome.ok () }

/-- Witness for C2: scenario 5 concretely — the upload is attempted and
answered non-2xx, so the process exits 1, `start_deployment` is never
called, and the artifact stays on disk. -/
theorem deploy_step_failure_aborts_witness :
    (deploy envUpload403).exitCode = 1 ∧
    (deploy envUpload403).startCalled = false ∧
    (deploy envUpload403).zipCreated = true ∧
    (deploy envUpload403).artifactDeleted = false :=
  (deploy_step_failure_aborts envUpload403).1 rfl rfl

/-! ## The `deploy` action of `main` (branch reconciliation order) -/

/-- Outcome of the `deploy` action in `main`, after the app has been
selected: either branch reconciliation never returned (operator input or
fuel exhausted), or the guard `if not branch_id or not build_directory`
exited 1 (carrying the remote state as reconciliation left it), or
`deploy` ran on the resolved branch. -/
inductive MainResult where
  | reconcileAborted
  | fatalMissing (r : Remote)
  | deployed (branch : String) (r : Remote)

/-- Python truthiness of the optional `build_directory` entry. -/
def bdFalsy : Option String → Bool
  | none => true
  | some s => s = ""

/-- Embedding of the `deploy` branch of `main`: `get_deployment_branch`
runs first (prompting and possibly creating a remote branch), then the
`if not branch_id or not build_directory: sys.exit(1)` guard, then
`deploy`. -/
def mainDeployAction (fuel : Nat) (configBranch gitBranch : Option String)
    (r : Remote) (inputs : List String) (buildDirectory : Option String) :
    MainResult :=
  match get_deployment_branch fuel configBranch gitBranch r inputs with
  | none => MainResult.reconcileAborted
  | some (b, r1, _) =>
    if b = "" ∨ bdFalsy buildDirectory then MainResult.fatalMissing r1
    else MainResult.deployed b r1

/-- C10: branch reconciliation runs before the `build_directory` presence
check: whenever reconciliation returns (final remote state `r1`, which may
include a branch just created via `create_branch`) and the app entry lacks
`build_directory`, the process exits fatally with the reconciliation's
remote effects already performed, and nothing is packaged or deployed. -/
theorem mainDeployAction_missing_build_directory (fuel : Nat)
    (configBranch gitBranch : Option String) (r : Remote)
    (inputs : List String) (b : String) (r1 : Remote) (rest : List String)
    (hg : get_deployment_branch fuel configBranch gitBranch r inputs =
      some (b, r1, rest)) :
    mainDeployAction fuel configBranch gitBranch r inputs none =
      MainResult.fatalMissing r1 := by
  unfold mainDeployAction
  rw [hg]
  simp [bdFalsy]

/-- Witness for C10: a concrete run with no configured branch, git branch
`feat` absent remotely, operator answering `y`: the remote branch `feat`
is created (`createCalls` goes to 1), and only then does the missing
`build_directory` abort the action — nothing is deployed. -/
theorem mainDeployAction_missing_build_directory_witness :
    mainDeployAction 5 none (some "feat") remoteB ["y"] none =
      MainResult.fatalMissing
        { branches := ["feat"], createOk := fun _ => true, createCalls := 1 } :=
  mainDeployAction_missing_build_directory 5 none (some "feat") remoteB
    ["y"] "feat"
    { branches := ["feat"], createOk := fun _ => true, createCalls := 1 } [] rfl

/-! ## `zip_directory` and the round-trip law

`zip_directory` walks the tree with `os.walk` and writes each regular
file under `arcname = os.path.relpath(file_path, folder_path)`.  Paths
are modelled as lists of components; the archive is the list of
`(relative path, byte content)` entries.  (`os.walk` emits a directory's
files before its subdirectories; entry order is irrelevant to the
round-trip statement, which is about membership.) -/

def zip_directory (pre : List String) : List Entry → List (List String × List Nat)
  | [] => []
  | Entry.file n c :: rest => (pre ++ [n], c) :: zip_directory pre rest
  | Entry.dir n ch :: rest =>
    zip_directory (pre ++ [n]) ch ++ zip_directory pre rest

/-- Unpacking side of the round-trip: read the regular file at relative
path `q` inside the directory listing `es`, following one component per
level (the first entry with a matching name wins, as on a filesystem). -/
def readFile : List Entry → List String → Option (List Nat)
  | _, [] => none
  | [], _ :: _ => none
  | Entry.file n c :: rest, p :: ps =>
    if n = p then (if ps = [] then some c else none)
    else readFile rest (p :: ps)
  | Entry.dir n ch :: rest, p :: ps =>
    if n = p then readFile ch ps
    else readFile rest (p :: ps)

def hasName (es : List Entry) (n : String) : Bool :=
  es.any (fun e => Entry.name e = n)

/-- Well-formedness of a directory tree: within every directory the entry
names are pairwise distinct, as on a real filesystem. -/
def wfTree : List Entry → Bool
  | [] => true
  | Entry.file n _ :: rest => !hasName rest n && wfTree rest
  | Entry.dir n ch :: rest => !hasName rest n && wfTree ch && wfTree rest

lemma readFile_hasName : ∀ (es : List Entry) (p : String) (ps : List String)
    (c : List Nat), readFile es (p :: ps) = some c → hasName es p = true := by
  intro es
  induction es with
  | nil => intro p ps c h; simp [readFile] at h
  | cons e rest ih =>
    intro p ps c h
    cases e with
    | file n c2 =>
      rw [readFile] at h
      by_cases hn : n = p
      · simp [hasName, hn, Entry.name]
      · simp only [if_neg hn] at h
        have := ih p ps c h
        simp [hasName] at this ⊢
        exact Or.inr this
    | dir n ch =>
      rw [readFile] at h
      by_cases hn : n = p
      · simp [hasName, hn, Entry.name]
      · simp only [if_neg hn] at h
        have := ih p ps c h
        simp [hasName] at this ⊢
        exact Or.inr this

theorem zip_mem_readFile (es : List Entry) :
    ∀ (pre p : List String) (c : List Nat), wfTree es = true →
    (p, c) ∈ zip_directory pre es →
    ∃ q, p = pre ++ q ∧ readFile es q = some c := by
  induction es using wfTree.induct with
  | case1 =>
    intro pre p c _ hmem
    simp [zip_directory] at hmem
  | case2 n c2 rest ih =>
    intro pre p c hwf hmem
    rw [zip_directory] at hmem
    rw [wfTree, Bool.and_eq_true, Bool.not_eq_true'] at hwf
    rcases List.mem_cons.mp hmem with heq | htail
    · have hp := congrArg Prod.fst heq
      have hc := congrArg Prod.snd heq
      simp only at hp hc
      refine ⟨[n], hp, ?_⟩
      rw [readFile, if_pos rfl, if_pos rfl, hc]
    · rcases ih pre p c hwf.2 htail with ⟨q, hq, hr⟩
      refine ⟨q, hq, ?_⟩
      rcases q with _ | ⟨p0, ps⟩
      · rw [readFile] at hr; exact absurd hr (by simp)
      · rw [readFile]
        by_cases hn : n = p0
        · subst hn
          have := readFile_hasName rest n ps c hr
          rw [this] at hwf
          exact absurd hwf.1 (by simp)
        · rw [if_neg hn]; exact hr
  | case3 n ch rest ihch ihrest =>
    intro pre p c hwf hmem
    rw [zip_directory] at hmem
    rw [wfTree, Bool.and_eq_true, Bool.and_eq_true, Bool.not_eq_true'] at hwf
    rcases List.mem_append.mp hmem with hleft | hright
    · rcases ihch (pre ++ [n]) p c hwf.1.2 hleft with ⟨q, hq, hr⟩
      refine ⟨n :: q, ?_, ?_⟩
      · rw [hq]; simp
      · rw [readFile, if_pos rfl]; exact hr
    · rcases ihrest pre p c hwf.2 hright with ⟨q, hq, hr⟩
      refine ⟨q, hq, ?_⟩
      rcases q with _ | ⟨p0, ps⟩
      · rw [readFile] at hr; exact absurd hr (by simp)
      · rw [readFile]
        by_cases hn : n = p0
        · subst hn
          have := readFile_hasName rest n ps c hr
          rw [this] at hwf
          exact absurd hwf.1.1 (by simp)
        · rw [if_neg hn]; exact hr

theorem readFile_zip_mem (es : List Entry) :
    ∀ (pre q : List String) (c : List Nat), readFile es q = some c →
    (pre ++ q, c) ∈ zip_directory pre es := by
  induction es using wfTree.induct with
  | case1 =>
    intro pre q c h
    rcases q with _ | ⟨p, ps⟩ <;> rw [readFile] at h <;> exact absurd h (by simp)
  | case2 n c2 rest ih =>
    intro pre q c h
    rcases q with _ | ⟨p, ps⟩
    · rw [readFile] at h; exact absurd h (by simp)
    rw [readFile] at h
    rw [zip_directory]
    by_cases hn : n = p
    · rw [if_pos hn] at h
      rcases ps with _ | ⟨p1, ps1⟩
      · simp only [if_pos rfl] at h
        injection h with h
        subst h; subst hn
        exact List.mem_cons_self _ _
      · exact absurd h (by simp)
    · rw [if_neg hn] at h
      exact List.mem_cons_of_mem _ (ih pre (p :: ps) c h)
  | case3 n ch rest ihch ihrest =>
    intro pre q c h
    rcases q with _ | ⟨p, ps⟩
    · rw [readFile] at h; exact absurd h (by simp)
    rw [readFile] at h
    rw [zip_directory]
    by_cases hn : n = p
    · subst hn
      rw [if_pos rfl] at h
      apply List.mem_append_left
      have h2 : pre ++ n :: ps = (pre ++ [n]) ++ ps := by simp
      rw [h2]
      exact ihch (pre ++ [n]) ps c h
    · rw [if_neg hn] at h
      exact List.mem_append_right _ (ihrest pre (p :: ps) c h)

/-- C6: round-trip law for `zip_directory`.  For every well-formed build
directory (distinct names within each directory, as on a filesystem), a
`(relative path, byte content)` pair is an entry of the archive exactly
when that path reaches a regular file with those bytes in the original
tree — so unpacking the archive reproduces every original regular file's
relative path and content, subdirectory structure included. -/
theorem zip_directory_roundtrip (es : List Entry) (hwf : wfTree es = true)
    (p : List String) (c : List Nat) :
    (p, c) ∈ zip_directory [] es ↔ readFile es p = some c := by
  constructor
  · intro h
    rcases zip_mem_readFile es [] p c hwf h with ⟨q, hq, hr⟩
    rw [List.nil_append] at hq
    rw [hq]; exact hr
  · intro h
    have := readFile_zip_mem es [] p c h
    rw [List.nil_append] at this
    exact this

def treeW : List Entry :=
  [Entry.file "index.html" [10],
   Entry.dir "assets" [Entry.file "a.css" [1, 2]]]

/-- Witness for C6: the concrete tree `treeW` is well-formed, and the
round-trip equivalence instantiated at the nested file
`assets/a.css` holds there. -/
theorem zip_directory_roundtrip_witness :
    wfTree treeW = true ∧
    ((["assets", "a.css"], [1, 2]) ∈ zip_directory [] treeW ↔
      readFile treeW ["assets", "a.css"] = some [1, 2]) :=
  ⟨by simp [treeW, wfTree, hasName, Entry.name],
   zip_directory_roundtrip treeW
     (by simp [treeW, wfTree, hasName, Entry.name]) ["assets", "a.css"] [1, 2]⟩

/-! ## `load_config` user lookup -/

/-- One user's configuration value, abstracted as an association list of
settings (its YAML mapping); Python truthiness of a dict is
non-emptiness. -/
abbrev UserCfg := List (String × String)

/-- Result of the lookup step of `load_config`: the configuration
returned and whether the fallback warning was printed. -/
structure LoadResult where
  cfg : UserCfg
  fellBack : Bool
deriving DecidableEq

/-- Embedding of `all_config.get(username, {})` over the
insertion-ordered mapping. -/
def userLookup (allConfig : List (String × UserCfg)) (username : String) :
    Option UserCfg :=
  (allConfig.find? (fun kv => kv.1 == username)).map Prod.snd

/-- Embedding of the user-lookup step of `load_config` (after the YAML
source has been read into `all_config`): `config =
all_config.get(username, {})`; `if not config:` prints the fallback
warning and takes `next(iter(all_config.values()), {})`, the first
declared entry. -/
def load_config_lookup (allConfig : List (String × UserCfg))
    (username : String) : LoadResult :=
  let cfg := (userLookup allConfig username).getD []
  if cfg = [] then
    { cfg := (allConfig.head?.map Prod.snd).getD [], fellBack := true }
  else
    { cfg := cfg, fellBack := false }

def acEmptyAlice : List (String × UserCfg) :=
  [("bob", [("AWS_PROFILE", "b")]), ("alice", [])]

/-- C7 counterexample: `alice` is present as a key of the mapping but her
value is empty (falsy), so `load_config_lookup` does not return her
entry: it warns and returns the first declared entry (`bob`'s). -/
theorem load_config_lookup_counterexample :
    "alice" ∈ acEmptyAlice.map Prod.fst ∧
    userLookup acEmptyAlice "alice" = some [] ∧
    load_config_lookup acEmptyAlice "alice" =
      { cfg := [("AWS_PROFILE", "b")], fellBack := true } := by
  refine ⟨by decide, by decide, by decide⟩

/-- C7 (amended): if the username is present with a non-empty (truthy)
entry, `load_config_lookup` returns exactly that entry and signals no
fallback; if the username is absent, or present with an empty entry, it
emits the fallback diagnostic and returns the first declared entry (the
empty mapping's degenerate fallback is the empty configuration, still
flagged).  The caller can tell a fallback from a match. -/
theorem load_config_lookup_behavior (ac : List (String × UserCfg))
    (u : String) :
    (∀ v, userLookup ac u = some v → v ≠ [] →
      load_config_lookup ac u = { cfg := v, fellBack := false }) ∧
    (userLookup ac u = none ∨ userLookup ac u = some [] →
      load_config_lookup ac u =
        { cfg := (ac.head?.map Prod.snd).getD [], fellBack := true }) := by
  constructor
  · intro v hv hne
    simp [load_config_lookup, hv, hne]
  · intro h
    rcases h with h | h <;> simp [load_config_lookup, h]

/-- Witness for C7: `bob` is present with a non-empty entry and gets
exactly that entry back, with no fallback signal. -/
theorem load_config_lookup_behavior_witness :
    load_config_lookup acEmptyAlice "bob" =
      { cfg := [("AWS_PROFILE", "b")], fellBack := false } :=
  (load_config_lookup_behavior acEmptyAlice "bob").1
    [("AWS_PROFILE", "b")] (by decide) (by decide)

/-- C9: a username present as a key but mapping to an empty (falsy) value
is treated exactly like an absent username: the fallback warning fires
and the first declared user's entry is returned — the same result as for
any username not in the mapping at all. -/
theorem load_config_lookup_empty_value (ac : List (String × UserCfg))
    (u u2 : String) (h : userLookup ac u = some [])
    (h2 : userLookup ac u2 = none) :
    load_config_lookup ac u =
      { cfg := (ac.head?.map Prod.snd).getD [], fellBack := true } ∧
    load_config_lookup ac u = load_config_lookup ac u2 := by
  constructor
  · simp [load_config_lookup, h]
  · simp [load_config_lookup, h, h2]

/-- Witness for C9: `alice` (present, empty value) and `carol` (absent)
produce the same fallback result. -/
theorem load_config_lookup_empty_value_witness :
    load_config_lookup acEmptyAlice "alice" =
      { cfg := [("AWS_PROFILE", "b")], fellBack := true } ∧
    load_config_lookup acEmptyAlice "alice" =
      load_config_lookup acEmptyAlice "carol" :=
  load_config_lookup_empty_value acEmptyAlice "alice" "carol"
    (by decide) (by decide)

/-! ## `get_app_info` app selection -/

/-- Filesystem paths as character lists (Python `str`). -/
abbrev FsPath := List Char

/-- Python `s.startswith(t)`: the first `len(t)` characters of `s` equal
`t`. -/
def pyStartswith (s t : FsPath) : Bool :=
  s.take t.length == t

/-- An app entry, with the field `get_app_info` reads.  (The source dict
also carries `app_id`, `build_directory`, `default_branch`; they are not
consulted by the selection logic.) -/
structure AppInfo where
  repo_root : Option FsPath
deriving DecidableEq

/-- The auto-detection test of `get_app_info`: `repo_root =
info.get("repo_root", "")` is truthy and
`current_dir.startswith(repo_root)`. -/
def repoRootMatches (cwd : FsPath) (info : AppInfo) : Bool :=
  !(info.repo_root.getD []).isEmpty && pyStartswith cwd (info.repo_root.getD [])

/-- Embedding of `get_app_info(config, app_name)`: `apps` is the
insertion-ordered `config['apps']` mapping, `cwd` is `os.getcwd()`, and
`appArg` is `args.app`.  With no (truthy) explicit name, the first entry
whose `repo_root` passes the `startswith` test is picked; a still-falsy
name exits (`none`), and an unknown name exits (`none`); otherwise the
entry found by name lookup is returned. -/
def get_app_info (apps : List (String × AppInfo)) (cwd : FsPath)
    (appArg : Option String) : Option (String × AppInfo) :=
  let a0 : String := match appArg with | some n => n | none => ""
  let a1 : String :=
    if a0 = "" then
      match (apps.find? (fun kv => repoRootMatches cwd kv.2)).map Prod.fst with
      | some n => n
      | none => ""
    else a0
  if a1 = "" then none
  else
    match (apps.find? (fun kv => kv.1 == a1)).map Prod.snd with
    | none => none
    | some info => some (a1, info)

/-- Modelled from the spec's words: `root` is a *path*-prefix of `p` when
it is `p` itself or an ancestor directory of `p` (component boundary
respected).  Stated only to compare with the source's string
`startswith`. -/
def specPathPrefix (root p : FsPath) : Bool :=
  root == p || (root ++ ['/']).isPrefixOf p

def appsW : List (String × AppInfo) :=
  [("site", { repo_root := some "/home/u/site".data })]

/-- C5 counterexample: with `repo_root = "/home/u/site"` and the current
directory `"/home/u/site2"`, the source's `startswith` test selects the
app even though `repo_root` is not a path-prefix of the working directory
(`site2` is a sibling, not a descendant, of `site`). -/
theorem get_app_info_counterexample :
    get_app_info appsW "/home/u/site2".data none =
      some ("site", { repo_root := some "/home/u/site".data }) ∧
    specPathPrefix "/home/u/site".data "/home/u/site2".data = false := by
  refine ⟨by decide, by decide⟩

lemma find?_by_key_of_mem_nodup (apps : List (String × AppInfo)) (n : String)
    (info : AppInfo) (hnd : (apps.map Prod.fst).Nodup)
    (hmem : (n, info) ∈ apps) :
    apps.find? (fun kv => kv.1 == n) = some (n, info) := by
  induction apps with
  | nil => simp at hmem
  | cons kv rest ih =>
    rw [List.map_cons, List.nodup_cons] at hnd
    rcases List.mem_cons.mp hmem with heq | htail
    · subst heq
      simp [List.find?]
    · have hk : kv.1 ≠ n := by
        intro he
        exact hnd.1 (he ▸ List.mem_map_of_mem Prod.fst htail)
      rw [List.find?]
      simp only [beq_eq_false_iff_ne.mpr hk]
      exact ih hnd.2 htail

/-- C5 (amended): app selection is deterministic and selects exactly one
entry or exits.  With no explicit name, the first entry (in config
iteration order) whose truthy `repo_root` is a *string* prefix of the
current working directory (Python `startswith` — not restricted to path
component boundaries) is selected, assuming distinct app names as in the
source dict; if no entry matches, the process exits fatally.  With an
explicit (truthy) name, the entry is looked up directly; an unknown name
exits fatally. -/
theorem get_app_info_selection (apps : List (String × AppInfo)) (cwd : FsPath)
    (hnd : (apps.map Prod.fst).Nodup) :
    (∀ n info, apps.find? (fun kv => repoRootMatches cwd kv.2) = some (n, info) →
      n ≠ "" → get_app_info apps cwd none = some (n, info)) ∧
    (apps.find? (fun kv => repoRootMatches cwd kv.2) = none →
      get_app_info apps cwd none = none) ∧
    (∀ n, n ≠ "" → get_app_info apps cwd (some n) =
      (apps.find? (fun kv => kv.1 == n)).map (fun kv => (n, kv.2))) := by
  refine ⟨?_, ?_, ?_⟩
  · intro n info hfind hne
    have hmem : (n, info) ∈ apps := List.mem_of_find?_eq_some hfind
    have hkey := find?_by_key_of_mem_nodup apps n info hnd hmem
    simp [get_app_info, hfind, hkey, hne]
  · intro hfind
    simp [get_app_info, hfind]
  · intro n hne
    rcases hf : apps.find? (fun kv => kv.1 == n) with _ | kv
    · simp [get_app_info, hne, hf]
    · have hkv : kv.1 = n := by simpa using List.find?_some hf
      simp [get_app_info, hne, hf, hkv]

/-- Witness for C5 (amended): concrete auto-detection — the working
directory lies under the first app's `repo_root`, and that app is
selected. -/
theorem get_app_info_selection_witness :
    get_app_info appsW "/home/u/site/docs".data none =
      some ("site", { repo_root := some "/home/u/site".data }) :=
  (get_app_info_selection appsW "/home/u/site/docs".data (by decide)).1
    "site" { repo_root := some "/home/u/site".data } (by decide) (by decide)

end AmplifyDeploy
